import Mathlib

/-!
Verification of the PII detection-and-masking engine
(`detector_ashish_gahukar.py`) against its specification.

Strings are modelled as `List Char`.  The Python regular expressions are
embedded as explicit scanners over character lists that reproduce the
leftmost-match, greedy-with-backtracking semantics of `re.search` and
`re.sub` for the fixed patterns of the source, including `\b` word
boundaries.  Character classes are the ASCII classes of the patterns.
-/

/-- `\w` of the source's regexes: letters, digits, underscore (ASCII). -/
def isWordChar (c : Char) : Bool := c.isAlphanum || c == '_'

/-- `\b` between an optional previous character and the next character. -/
def boundaryAt : Option Char → Char → Bool
  | none, c => isWordChar c
  | some p, c => isWordChar p != isWordChar c

/-- `\b` after a word character, looking at the remaining input. -/
def afterBoundary : List Char → Bool
  | [] => true
  | c :: _ => !isWordChar c

/-- Maximal run of characters satisfying `p`, plus the remainder. -/
def splitRun (p : Char → Bool) : List Char → List Char × List Char
  | [] => ([], [])
  | c :: l =>
    if p c then
      let r := splitRun p l
      (c :: r.1, r.2)
    else ([], c :: l)

/-- Scan the input left to right and return the first match's groups.
`core prev s` attempts a match at the start of `s`, where `prev` is the
character just before `s` in the whole input (for `\b`). -/
def reFindAux {α : Type} (core : Option Char → List Char → Option (α × List Char)) :
    Option Char → List Char → Option α
  | _, [] => none
  | prev, c :: l =>
    match core prev (c :: l) with
    | some (g, _) => some g
    | none => reFindAux core (some c) l

/-- `re.search` over a whole string, returning the first match's groups. -/
def reFind {α : Type} (core : Option Char → List Char → Option (α × List Char))
    (s : List Char) : Option α :=
  reFindAux core none s

/-- Truthiness of `re.search`. -/
def reSearch {α : Type} (core : Option Char → List Char → Option (α × List Char))
    (s : List Char) : Bool :=
  (reFind core s).isSome

/-- `re.sub`: replace each non-overlapping leftmost match (text given by
`consumed`) with `repl`, scanning left to right.  `fuel` bounds recursion;
every match consumes at least one character so `fuel = length` suffices. -/
def reSubAux {α : Type} (core : Option Char → List Char → Option (α × List Char))
    (repl consumed : α → List Char) : Nat → Option Char → List Char → List Char
  | 0, _, l => l
  | _ + 1, _, [] => []
  | fuel + 1, prev, c :: l =>
    match core prev (c :: l) with
    | some (g, rest) => repl g ++ reSubAux core repl consumed fuel (consumed g).getLast? rest
    | none => c :: reSubAux core repl consumed fuel (some c) l

/-- `re.sub` over a whole string. -/
def reSub {α : Type} (core : Option Char → List Char → Option (α × List Char))
    (repl consumed : α → List Char) (s : List Char) : List Char :=
  reSubAux core repl consumed s.length none s

/-! ### PHONE_RE = `\b(\d{10})\b` and AADHAR_RE = `\b(\d{12})\b` -/

/-- Match of `\b(\d{n})\b` at the start of the input: the maximal digit run
must have length exactly `n` and be word-bounded on both sides. -/
def fixedDigitsCore (n : Nat) (prev : Option Char) (s : List Char) :
    Option (List Char × List Char) :=
  let r := splitRun Char.isDigit s
  match r.1 with
  | [] => none
  | c :: _ =>
    if boundaryAt prev c && r.1.length == n && afterBoundary r.2 then
      some (r.1, r.2)
    else none

def phoneCore (prev : Option Char) (s : List Char) : Option (List Char × List Char) :=
  fixedDigitsCore 10 prev s

def aadharCore (prev : Option Char) (s : List Char) : Option (List Char × List Char) :=
  fixedDigitsCore 12 prev s

/-- `mask_phone`: strip non-digits; if 10 digits remain keep first 2 and
last 2 and put 6 `X`s in between, else the generic redaction token. -/
def mask_phone (p : List Char) : List Char :=
  let s := p.filter Char.isDigit
  if s.length == 10 then s.take 2 ++ "XXXXXX".toList ++ s.drop 8
  else "[REDACTED_PII]".toList

/-- `mask_aadhar`: strip non-digits; if 12 digits remain keep first 4 and
last 4 with 4 `X`s in between, else the generic redaction token. -/
def mask_aadhar (a : List Char) : List Char :=
  let s := a.filter Char.isDigit
  if s.length == 12 then s.take 4 ++ "XXXX".toList ++ s.drop 8
  else "[REDACTED_PII]".toList

def phoneSearch (s : List Char) : Bool := reSearch phoneCore s
def phoneSub (s : List Char) : List Char := reSub phoneCore mask_phone (fun g => g) s
def aadharSearch (s : List Char) : Bool := reSearch aadharCore s
def aadharSub (s : List Char) : List Char := reSub aadharCore mask_aadhar (fun g => g) s

/-! ### PASSPORT_RE = `\b([A-Za-z]\d{7})\b` (case-insensitive letter) -/

def passportCore (prev : Option Char) (s : List Char) : Option (List Char × List Char) :=
  match s with
  | [] => none
  | c :: l =>
    if c.isAlpha && boundaryAt prev c then
      let r := splitRun Char.isDigit l
      if r.1.length == 7 && afterBoundary r.2 then some (c :: r.1, r.2) else none
    else none

/-- `mask_passport`: search the passport pattern in the input; keep the
first and last character of the match, `X`-fill the interior. -/
def mask_passport (p : List Char) : List Char :=
  match reFind passportCore p with
  | some v =>
    if 4 ≤ v.length then
      v.take 1 ++ List.replicate (v.length - 2) 'X' ++ v.drop (v.length - 1)
    else "[REDACTED_PII]".toList
  | none => "[REDACTED_PII]".toList

def passportSearch (s : List Char) : Bool := reSearch passportCore s
def passportSub (s : List Char) : List Char := reSub passportCore mask_passport (fun g => g) s

/-! ### EMAIL_RE = `\b([A-Za-z0-9._%+-]+)@([A-Za-z0-9.-]+\.[A-Za-z]{2,})\b` -/

def localChar (c : Char) : Bool :=
  c.isAlphanum || c == '.' || c == '_' || c == '%' || c == '+' || c == '-'

def domainChar (c : Char) : Bool := c.isAlphanum || c == '.' || c == '-'

/-- Greedy-with-backtracking match of `[A-Za-z0-9.-]+\.[A-Za-z]{2,}\b`
given the maximal domain-character run and the remainder after it.  The
argument is the candidate index of the dot (= length of the part matched
by `[A-Za-z0-9.-]+`), tried from longest to shortest. -/
def domainTry (run rest : List Char) : Nat → Option (List Char × List Char)
  | 0 => none
  | j + 1 =>
    match
      (if run.get? (j + 1) == some '.' then
        let s2 := run.drop (j + 2) ++ rest
        let r := splitRun Char.isAlpha s2
        if 2 ≤ r.1.length && afterBoundary r.2 then
          some (run.take (j + 1) ++ '.' :: r.1, r.2)
        else none
      else none)
    with
    | some res => some res
    | none => domainTry run rest j

/-- Match of the email pattern at the start of the input, returning the
two groups (local part, domain) and the remainder. -/
def emailCore (prev : Option Char) (s : List Char) :
    Option ((List Char × List Char) × List Char) :=
  let r := splitRun localChar s
  match r.1 with
  | [] => none
  | c :: _ =>
    if boundaryAt prev c then
      match r.2 with
      | '@' :: r2 =>
        let d := splitRun domainChar r2
        match domainTry d.1 d.2 (d.1.length - 1) with
        | some (dom, rest2) => some ((r.1, dom), rest2)
        | none => none
      | _ => none
    else none

def emailFind (s : List Char) : Option (List Char × List Char) := reFind emailCore s

/-- `mask_email`: search the email pattern; keep the first 2 characters of
the local part (first character plus one `X` when the local part has at
most 2 characters), `X`-fill the rest with at least 3 `X`s, keep the
domain. -/
def mask_email (e : List Char) : List Char :=
  match emailFind e with
  | some (lcl, dom) =>
    (if lcl.length ≤ 2 then lcl.take 1 ++ ['X']
     else lcl.take 2 ++ List.replicate (max 3 (lcl.length - 2)) 'X') ++ '@' :: dom
  | none => "[REDACTED_PII]".toList

def emailGroup0 (g : List Char × List Char) : List Char := g.1 ++ '@' :: g.2
def emailSearch (s : List Char) : Bool := reSearch emailCore s
def emailSub (s : List Char) : List Char :=
  reSub emailCore (fun g => mask_email (emailGroup0 g)) emailGroup0 s

/-! ### UPI_RE = `\b([A-Za-z0-9._%-]{2,})@([A-Za-z0-9]{2,})\b` -/

def upiChar (c : Char) : Bool :=
  c.isAlphanum || c == '.' || c == '_' || c == '%' || c == '-'

def upiCore (prev : Option Char) (s : List Char) :
    Option ((List Char × List Char) × List Char) :=
  let r := splitRun upiChar s
  match r.1 with
  | [] => none
  | c :: _ =>
    if 2 ≤ r.1.length && boundaryAt prev c then
      match r.2 with
      | '@' :: r2 =>
        let d := splitRun Char.isAlphanum r2
        if 2 ≤ d.1.length && afterBoundary d.2 then some ((r.1, d.1), d.2) else none
      | _ => none
    else none

def upiFind (s : List Char) : Option (List Char × List Char) := reFind upiCore s

/-- `mask_upi`: same masking shape as `mask_email`, applied to the
`user@host` pair of the UPI pattern. -/
def mask_upi (u : List Char) : List Char :=
  match upiFind u with
  | some (user, host) =>
    (if user.length ≤ 2 then user.take 1 ++ ['X']
     else user.take 2 ++ List.replicate (max 3 (user.length - 2)) 'X') ++ '@' :: host
  | none => "[REDACTED_PII]".toList

def upiGroup0 (g : List Char × List Char) : List Char := g.1 ++ '@' :: g.2
def upiSearch (s : List Char) : Bool := reSearch upiCore s
def upiSub (s : List Char) : List Char :=
  reSub upiCore (fun g => mask_upi (upiGroup0 g)) upiGroup0 s

/-! ### IPV4_RE = `\b((?:\d{1,3}\.){3}\d{1,3})\b` -/

/-- `\d{1,3}`: the maximal digit run, which must have length 1 to 3. -/
def ipOctet (s : List Char) : Option (List Char × List Char) :=
  let r := splitRun Char.isDigit s
  if 1 ≤ r.1.length && r.1.length ≤ 3 then some (r.1, r.2) else none

def ipv4Core (prev : Option Char) (s : List Char) : Option (List Char × List Char) :=
  match s with
  | [] => none
  | c :: _ =>
    if c.isDigit && boundaryAt prev c then
      match ipOctet s with
      | some (r1, rest1) =>
        match rest1 with
        | '.' :: s2 =>
          match ipOctet s2 with
          | some (r2, rest2) =>
            match rest2 with
            | '.' :: s3 =>
              match ipOctet s3 with
              | some (r3, rest3) =>
                match rest3 with
                | '.' :: s4 =>
                  match ipOctet s4 with
                  | some (r4, rest4) =>
                    if afterBoundary rest4 then
                      some (r1 ++ '.' :: r2 ++ '.' :: r3 ++ '.' :: r4, rest4)
                    else none
                  | none => none
                | _ => none
              | none => none
            | _ => none
          | none => none
        | _ => none
      | none => none
    else none

/-- Split a string on `'.'` (Python `str.split('.')`). -/
def splitOnDot : List Char → List (List Char)
  | [] => [[]]
  | c :: l =>
    if c == '.' then [] :: splitOnDot l
    else
      match splitOnDot l with
      | h :: t => (c :: h) :: t
      | [] => [[c]]

/-- `mask_ip`: search the IPv4 pattern; replace the last dot-separated
octet of the match with `XXX`. -/
def mask_ip (ip : List Char) : List Char :=
  match reFind ipv4Core ip with
  | some full =>
    let parts := splitOnDot full
    if parts.length == 4 then List.intercalate ['.'] (parts.take 3 ++ ["XXX".toList])
    else "[REDACTED_PII]".toList
  | none => "[REDACTED_PII]".toList

def ipv4Search (s : List Char) : Bool := reSearch ipv4Core s
def ipv4Sub (s : List Char) : List Char := reSub ipv4Core mask_ip (fun g => g) s

/-! ### Generic string helpers of the source -/

/-- Python `str.strip()` (ASCII whitespace). -/
def stripWs (s : List Char) : List Char :=
  ((s.dropWhile Char.isWhitespace).reverse.dropWhile Char.isWhitespace).reverse

/-- Python `str.split()` with no argument: split on whitespace runs,
discarding empty pieces.  `cur` accumulates the current word reversed. -/
def splitWsAux (cur : List Char) : List Char → List (List Char)
  | [] => if cur.isEmpty then [] else [cur.reverse]
  | c :: l =>
    if c.isWhitespace then
      if cur.isEmpty then splitWsAux [] l else cur.reverse :: splitWsAux [] l
    else splitWsAux (c :: cur) l

def splitWs (s : List Char) : List (List Char) := splitWsAux [] s

/-- `mask_generic_name`: strip, split on whitespace; with at least two
tokens mask each token (keep first character, `X`-fill the rest, a
single-character token becomes `X`); a single-word name is returned
stripped but unmasked. -/
def mask_generic_name (name : List Char) : List Char :=
  let s := stripWs name
  let parts := splitWs s
  if 2 ≤ parts.length then
    List.intercalate [' ']
      (parts.map (fun p =>
        if p.length ≤ 1 then ['X'] else p.take 1 ++ List.replicate (p.length - 1) 'X'))
  else s

/-- `re.sub(r'.', 'X', s)`: every character except a newline becomes `X`. -/
def mask_device (s : List Char) : List Char :=
  s.map (fun c => if c == '\n' then c else 'X')

/-- Python `v.split('@', 1)[1]`: everything after the first `'@'`. -/
def afterFirstAt (s : List Char) : List Char :=
  (s.dropWhile (fun c => c != '@')).drop 1

/-! ### Data model: a record is an ordered mapping parsed from JSON -/

/-- A JSON payload value: string, number, or null (the value shapes the
spec's data model admits). -/
inductive JValue where
  | VStr : List Char → JValue
  | VNum : Int → JValue
  | VNull : JValue
deriving DecidableEq, Repr

/-- Python `str(v)`. -/
def JValue.toStr : JValue → List Char
  | VStr s => s
  | VNum n => (toString n).toList
  | VNull => "None".toList

/-- Python truthiness of a payload value. -/
def JValue.truthy : JValue → Bool
  | VStr s => !s.isEmpty
  | VNum n => n != 0
  | VNull => false

/-- An ordered mapping from field name to value (a Python dict preserving
insertion order; keys are pairwise distinct). -/
abbrev Record := List (String × JValue)

/-- `k in record` / `record[k]` lookup. -/
def lookupField : Record → String → Option JValue
  | [], _ => none
  | (k0, v) :: t, k => if k0 = k then some v else lookupField t k

/-- `record[k] = v` on an existing key (the source only assigns keys that
are already present, so the key set never grows and the order is kept). -/
def updateField : Record → String → JValue → Record
  | [], _, _ => []
  | (k0, v0) :: t, k, v => (if k0 = k then (k0, v) else (k0, v0)) :: updateField t k v

/-- `record.get(k)` restricted to truthy values: `some v` exactly when the
key is present with a truthy value (the `if record.get(k):` idiom). -/
def getTruthy (r : Record) (k : String) : Option JValue :=
  match lookupField r k with
  | some v => if v.truthy then some v else none
  | none => none

/-! ### detect_and_mask: classification policy, pass by pass -/

/-- Rule 1, one known field: if the field is present and truthy and its
string form matches the phone pattern, mask it wholly and mark standalone. -/
def phoneFieldStep (record : Record) (st : Record × Bool) (f : String) : Record × Bool :=
  match lookupField record f with
  | some v =>
    if v.truthy && phoneSearch v.toStr then
      (updateField st.1 f (JValue.VStr (mask_phone v.toStr)), true)
    else st
  | none => st

/-- Rule 1: the known phone-like fields `phone` then `contact`. -/
def phoneFieldsPass (record : Record) (st : Record × Bool) : Record × Bool :=
  phoneFieldStep record (phoneFieldStep record st "phone") "contact"

/-- Rule 2: every string field with a word-bounded 10-digit run is
phone-substituted and marks standalone, unless the current redacted value
already contains an `X`. -/
def phoneScanGo : List (String × JValue) → Record × Bool → Record × Bool
  | [], st => st
  | (k, v) :: rest, st =>
    phoneScanGo rest
      (match v with
       | JValue.VStr s =>
         if phoneSearch s then
           match lookupField st.1 k with
           | none => (updateField st.1 k (JValue.VStr (phoneSub s)), true)
           | some cur =>
             if cur.toStr.contains 'X' then st
             else (updateField st.1 k (JValue.VStr (phoneSub s)), true)
         else st
       | _ => st)

/-- Rules 3, 4 and 6 share this shape: every string field matching `test`
is rewritten by `tr` and the flag is set. -/
def scanSubGo (test : List Char → Bool) (tr : List Char → List Char) :
    List (String × JValue) → Record × Bool → Record × Bool
  | [], st => st
  | (k, v) :: rest, st =>
    scanSubGo test tr rest
      (match v with
       | JValue.VStr s => if test s then (updateField st.1 k (JValue.VStr (tr s)), true) else st
       | _ => st)

/-- Rule 5, fallback scan: a string field containing `@` that matches the
UPI pattern and whose part after the first `@` has no dot. -/
def upiScanGo : List (String × JValue) → Record × Bool → Record × Bool
  | [], st => st
  | (k, v) :: rest, st =>
    upiScanGo rest
      (match v with
       | JValue.VStr s =>
         if s.contains '@' && upiSearch s then
           if (afterFirstAt s).contains '.' then st
           else (updateField st.1 k (JValue.VStr (upiSub s)), true)
         else st
       | _ => st)

/-- Rule 5: a dedicated truthy `upi_id` field matching the UPI pattern is
masked directly; otherwise all fields are scanned. -/
def upiPass (record : Record) (st : Record × Bool) : Record × Bool :=
  match getTruthy record "upi_id" with
  | some v =>
    if upiSearch v.toStr then (updateField st.1 "upi_id" (JValue.VStr (mask_upi v.toStr)), true)
    else st
  | none => upiScanGo record st

/-- Rules 1-5 in source order, threading the redacted copy and the
`standalone_found` flag (initially the record itself and `False`). -/
def standalonePhase (record : Record) : Record × Bool :=
  upiPass record
    (scanSubGo passportSearch passportSub record
      (scanSubGo aadharSearch aadharSub record
        (phoneScanGo record
          (phoneFieldsPass record (record, false)))))

/-- `standalone_found` after rules 1-5. -/
def standaloneOf (record : Record) : Bool := (standalonePhase record).2

/-- Rule 6 over a redacted copy: mask every email match and report
`email_present`. -/
def emailPhase (record : Record) (red : Record) : Record × Bool :=
  scanSubGo emailSearch emailSub record (red, false)

/-- `email_present`: some string field matches the email pattern. -/
def emailPresentOf (record : Record) : Bool := (emailPhase record record).2

/-- Rule 7 condition: both `first_name` and `last_name` truthy, or a
truthy `name` whose string form has at least 2 whitespace tokens. -/
def namePresentOf (record : Record) : Bool :=
  ((getTruthy record "first_name").isSome && (getTruthy record "last_name").isSome)
  || (match getTruthy record "name" with
      | some v => decide (2 ≤ (splitWs v.toStr).length)
      | none => false)

/-- Rule 7 masking: when the condition holds, mask `first_name`/`last_name`
(when both truthy) and `name` (when truthy) with the name masker. -/
def namePhase (record : Record) (red : Record) : Record :=
  if namePresentOf record then
    let redA :=
      if (getTruthy record "first_name").isSome && (getTruthy record "last_name").isSome then
        updateField
          (updateField red "first_name"
            (JValue.VStr (mask_generic_name ((getTruthy record "first_name").getD JValue.VNull).toStr)))
          "last_name"
          (JValue.VStr (mask_generic_name ((getTruthy record "last_name").getD JValue.VNull).toStr))
      else red
    match getTruthy record "name" with
    | some v => updateField redA "name" (JValue.VStr (mask_generic_name v.toStr))
    | none => redA
  else red

/-- Rule 8 condition: truthy `address`, `city` and `pin_code`, with at
least 5 digits left in the pin code after stripping non-digits. -/
def addressPresentOf (record : Record) : Bool :=
  match getTruthy record "address", getTruthy record "city", getTruthy record "pin_code" with
  | some _, some _, some pin => decide (5 ≤ (pin.toStr.filter Char.isDigit).length)
  | _, _, _ => false

/-- Rule 8 masking: replace `address` with the fixed address token and
partially mask `pin_code`. -/
def addressPhase (record : Record) (red : Record) : Record :=
  if addressPresentOf record then
    let pinv := ((getTruthy record "pin_code").getD JValue.VNull).toStr
    updateField
      (updateField red "address" (JValue.VStr "[REDACTED_PII_ADDRESS]".toList))
      "pin_code"
      (JValue.VStr (if 3 < pinv.length then pinv.take 2 ++ "XXX".toList else "XXX".toList))
  else red

/-- Rule 9 condition: a truthy `device_id` or `ip_address`. -/
def devicePresentOf (record : Record) : Bool :=
  (getTruthy record "device_id").isSome || (getTruthy record "ip_address").isSome

/-- Rule 9 masking: `X`-out `device_id` wholly, mask the last octet of
`ip_address`. -/
def devicePhase (record : Record) (red : Record) : Record :=
  if devicePresentOf record then
    let redA :=
      match getTruthy record "device_id" with
      | some v => updateField red "device_id" (JValue.VStr (mask_device v.toStr))
      | none => red
    match getTruthy record "ip_address" with
    | some v => updateField redA "ip_address" (JValue.VStr (mask_ip v.toStr))
    | none => redA
  else red

/-- Reconciliation, email part: restore the original value of every string
field that matches the email pattern. -/
def rollbackEmailGo : List (String × JValue) → Record → Record
  | [], red => red
  | (k, v) :: rest, red =>
    rollbackEmailGo rest
      (match v with
       | JValue.VStr s =>
         if emailSearch s then
           if (lookupField red k).isSome then updateField red k v else red
         else red
       | _ => red)

/-- Reconciliation pass (negative verdict only): restore email-masked
fields, a truthy `name` with fewer than 2 tokens, and a lopsided
`first_name`/`last_name` pair. -/
def rollbackPhase (record : Record) (red : Record) : Record :=
  let r1 := rollbackEmailGo record red
  let r2 :=
    match getTruthy record "name" with
    | some v => if (splitWs v.toStr).length < 2 then updateField r1 "name" v else r1
    | none => r1
  let lop :=
    ((getTruthy record "first_name").isSome && !(getTruthy record "last_name").isSome)
    || ((getTruthy record "last_name").isSome && !(getTruthy record "first_name").isSome)
  if lop then
    let ra :=
      if (lookupField r2 "first_name").isSome then
        updateField r2 "first_name" ((lookupField record "first_name").getD JValue.VNull)
      else r2
    if (lookupField ra "last_name").isSome then
      updateField ra "last_name" ((lookupField record "last_name").getD JValue.VNull)
    else ra
  else r2

/-- Finalization of one string value (positive verdict only): the chained
`if` statements of the source each test and substitute on the value as it
was at the start of the iteration, so a later hit overwrites an earlier
one. -/
def finalizeStr (v : List Char) : List Char :=
  let r0 := v
  let r1 := if phoneSearch v then phoneSub v else r0
  let r2 := if aadharSearch v then aadharSub v else r1
  let r3 := if passportSearch v then passportSub v else r2
  let r4 := if emailSearch v then emailSub v else r3
  let r5 := if ipv4Search v then ipv4Sub v else r4
  r5

def finalizeVal : JValue → JValue
  | JValue.VStr s => JValue.VStr (finalizeStr s)
  | v => v

/-- Finalization pass: re-run the safety-net substitutions over every
(string) field of the redacted record. -/
def finalizePass (red : Record) : Record :=
  red.map (fun kv => (kv.1, finalizeVal kv.2))

/-- The verdict: `standalone_found` from rules 1-5, or at least 2 of the
four combinatorial flags (the email flag as threaded through the scan). -/
def verdictOf (record : Record) : Bool :=
  (standalonePhase record).2 ||
    decide (2 ≤
      (if namePresentOf record then 1 else 0)
      + (if (emailPhase record (standalonePhase record).1).2 then 1 else 0)
      + (if addressPresentOf record then 1 else 0)
      + (if devicePresentOf record then 1 else 0))

/-- `detect_and_mask`: the whole per-record engine.  The terminal
serializability clean-up of the source coerces non-serializable values to
strings; every `JValue` is JSON-serializable, so it is the identity here. -/
def detect_and_mask (record : Record) : Record × Bool :=
  let red9 :=
    devicePhase record
      (addressPhase record (namePhase record (emailPhase record (standalonePhase record).1).1))
  let is_pii := verdictOf record
  let red10 := if is_pii then red9 else rollbackPhase record red9
  let red11 := if is_pii then finalizePass red10 else red10
  (red11, is_pii)

/-! ### main: per-row envelope handling

CSV file I/O and JSON parsing/serialization of the record envelope are
external collaborators (out of scope per the spec); the row loop is
modelled over an abstract strict-JSON parser `parse`, with the source's
fallback chain (strict parse, then parse after replacing single quotes
with double quotes, then the empty object). -/

/-- A CSV row as read by `csv.DictReader`: field name to string value. -/
abbrev Row := List (String × String)

def rowGet : Row → String → Option String
  | [], _ => none
  | (k0, v) :: t, k => if k0 = k then some v else rowGet t k

/-- Python `a or b` on optional strings (an absent key and an empty
string are both falsy). -/
def pyOr (a b : Option String) : Option String :=
  match a with
  | some s => if s.isEmpty then b else some s
  | none => b

/-- `r.get('record_id') or r.get('recordId') or r.get('id')`. -/
def ridOf (r : Row) : Option String :=
  pyOr (pyOr (rowGet r "record_id") (rowGet r "recordId")) (rowGet r "id")

/-- `r.get('Data_json') or r.get('data_json') or r.get('Data') or r.get('data')`. -/
def rawOf (r : Row) : Option String :=
  pyOr (pyOr (pyOr (rowGet r "Data_json") (rowGet r "data_json")) (rowGet r "Data"))
    (rowGet r "data")

/-- `raw.replace("'", '"')`. -/
def replaceQuotes (s : String) : String :=
  String.mk (s.toList.map (fun c => if c == '\'' then '"' else c))

/-- Minimal JSON string escaping (`ensure_ascii=False` keeps other
characters literal). -/
def jsonEscape (s : List Char) : List Char :=
  s.foldr
    (fun c acc =>
      if c == '"' then '\\' :: '"' :: acc
      else if c == '\\' then '\\' :: '\\' :: acc
      else if c == '\n' then '\\' :: 'n' :: acc
      else if c == '\t' then '\\' :: 't' :: acc
      else if c == '\r' then '\\' :: 'r' :: acc
      else c :: acc) []

def dumpVal : JValue → String
  | JValue.VStr s => String.mk ('"' :: jsonEscape s ++ ['"'])
  | JValue.VNum n => toString n
  | JValue.VNull => "null"

/-- `json.dumps` of a record object (`ensure_ascii=False`). -/
def dumpsJ (r : Record) : String :=
  "\x7b" ++ String.intercalate ", "
    (r.map (fun kv => String.mk ('"' :: jsonEscape kv.1.toList ++ ['"']) ++ ": " ++ dumpVal kv.2))
  ++ "\x7d"

/-- One row of the main loop: extract the identifier and the payload by
alias chains, parse with fallbacks, run `detect_and_mask`, and emit
`(record_id, redacted_data_json, is_pii)`. -/
def processRow (parse : String → Option Record) (r : Row) :
    Option String × String × String :=
  let rid := ridOf r
  match rawOf r with
  | none => (rid, dumpsJ [], "False")
  | some raw =>
    let parsed :=
      match parse raw with
      | some p => p
      | none =>
        match parse (replaceQuotes raw) with
        | some p => p
        | none => []
    let res := detect_and_mask parsed
    (rid, dumpsJ res.1, if res.2 then "True" else "False")

/-- The main loop: `rows_out` collects each row's output in order. -/
def processRows (parse : String → Option Record) (rows : List Row) :
    List (Option String × String × String) :=
  rows.foldl (fun acc r => acc ++ [processRow parse r]) []

/-! ### Derived evidence notions used in the statements -/

/-- The combinatorial evidence count aggregated by the policy. -/
def combinatorialCountOf (record : Record) : Nat :=
  (if namePresentOf record then 1 else 0) + (if emailPresentOf record then 1 else 0)
  + (if addressPresentOf record then 1 else 0) + (if devicePresentOf record then 1 else 0)

/-- A string value that no recognizer of the engine matches: no phone,
national-ID, passport, email or IPv4 hit, and no fallback-UPI trigger
(`@` present, UPI match, no dot after the first `@`). -/
def noPatternStr (s : List Char) : Bool :=
  !phoneSearch s && !aadharSearch s && !passportSearch s
  && !(s.contains '@' && upiSearch s && !(afterFirstAt s).contains '.')
  && !emailSearch s && !ipv4Search s

/-- A field `(k, v)` of `record` that no recognizer or targeted rule
touches: its string form matches no pattern, and it is not one of the
known field names in a state where the corresponding rule fires. -/
def untouchedField (record : Record) (k : String) (v : JValue) : Bool :=
  (match v with | JValue.VStr s => noPatternStr s | _ => true)
  && (!(k == "phone" || k == "contact") || !(v.truthy && phoneSearch v.toStr))
  && (!(k == "upi_id") || !(v.truthy && upiSearch v.toStr))
  && (!(k == "first_name" || k == "last_name")
      || !((getTruthy record "first_name").isSome && (getTruthy record "last_name").isSome))
  && (!(k == "name") || !(v.truthy && namePresentOf record))
  && (!(k == "address" || k == "pin_code") || !addressPresentOf record)
  && (!(k == "device_id") || !v.truthy)
  && (!(k == "ip_address") || !v.truthy)

/-! ### Claims -/

/-- C2: the record whose only field is `phone = "9876543210"` gets verdict
`True` with the phone masked to `"98XXXXXX10"`. -/
theorem detect_phone_only :
    detect_and_mask [("phone", JValue.VStr "9876543210".toList)]
      = ([("phone", JValue.VStr "98XXXXXX10".toList)], true) := by decide

/-- C3 counterexample: on the record with `name = "John Smith"` and
`email = "john.smith@example.com"`, the output email field is not
`"joXXX@example.com"` as claimed (the local part has 10 characters, so
`max 3 (10 - 2) = 8` `X`s are used, not 3). -/
theorem detect_name_email_not_three_X :
    lookupField
        (detect_and_mask
          [("name", JValue.VStr "John Smith".toList),
           ("email", JValue.VStr "john.smith@example.com".toList)]).1 "email"
      ≠ some (JValue.VStr "joXXX@example.com".toList) := by decide

/-- C3 amended: the record with `name = "John Smith"` and
`email = "john.smith@example.com"` gets verdict `True`, name
`"JXXX SXXXX"`, and email `"joXXXXXXXX@example.com"` (first 2 local
characters kept, the remaining 8 replaced by 8 `X`s). -/
theorem detect_name_email :
    detect_and_mask
        [("name", JValue.VStr "John Smith".toList),
         ("email", JValue.VStr "john.smith@example.com".toList)]
      = ([("name", JValue.VStr "JXXX SXXXX".toList),
          ("email", JValue.VStr "joXXXXXXXX@example.com".toList)], true) := by decide

/-- C4 counterexample: on the record whose only field is
`name = "John Smith"`, the output name field is not restored to
`"John Smith"` (the reconciliation pass restores a `name` only when it
has fewer than 2 tokens). -/
theorem detect_name_only_not_restored :
    lookupField (detect_and_mask [("name", JValue.VStr "John Smith".toList)]).1 "name"
      ≠ some (JValue.VStr "John Smith".toList) := by decide

/-- C4 amended: the record whose only field is `name = "John Smith"` gets
verdict `False`, and the name field remains speculatively masked as
`"JXXX SXXXX"` in the output. -/
theorem detect_name_only :
    detect_and_mask [("name", JValue.VStr "John Smith".toList)]
      = ([("name", JValue.VStr "JXXX SXXXX".toList)], false) := by decide

/-- C5: on a record with `address`, `city` and `pin_code = "560001"` and
no other signal, the verdict is `False`, but the address is emitted as the
fixed redaction token and the pin code stays masked: the reconciliation
pass never restores the address fields. -/
theorem detect_address_only :
    detect_and_mask
        [("address", JValue.VStr "12 Oak Street".toList),
         ("city", JValue.VStr "Pune".toList),
         ("pin_code", JValue.VStr "560001".toList)]
      = ([("address", JValue.VStr "[REDACTED_PII_ADDRESS]".toList),
          ("city", JValue.VStr "Pune".toList),
          ("pin_code", JValue.VStr "56XXX".toList)], false) := by decide

/-- C10: a record whose only field `note` contains a word-bounded 10-digit
run next to a literal `X` is returned unchanged with verdict `False`: rule
2's already-masked check sees the `X` in the original value and suppresses
both the masking and the standalone flag. -/
theorem detect_ten_digits_suppressed_by_X :
    detect_and_mask [("note", JValue.VStr "X 9876543210 b".toList)]
        = ([("note", JValue.VStr "X 9876543210 b".toList)], false)
      ∧ phoneSearch "X 9876543210 b".toList = true := by
  exact ⟨by decide, by decide⟩

/-- The flag component of a scan-and-substitute pass does not depend on
the redacted copy it rewrites, only on the scanned record. -/
theorem scanSubGo_snd (test : List Char → Bool) (tr : List Char → List Char) :
    ∀ (items : List (String × JValue)) (r r' : Record) (b : Bool),
      (scanSubGo test tr items (r, b)).2 = (scanSubGo test tr items (r', b)).2 := by
  intro items
  induction items with
  | nil => intro r r' b; rfl
  | cons kv rest ih =>
    intro r r' b
    obtain ⟨k, v⟩ := kv
    cases v with
    | VStr s =>
      by_cases h : test s = true
      · simpa only [scanSubGo, h, if_true] using ih _ _ true
      · simp only [scanSubGo, h, if_false, Bool.false_eq_true]
        exact ih _ _ b
    | VNum n => simpa only [scanSubGo] using ih _ _ b
    | VNull => simpa only [scanSubGo] using ih _ _ b

/-- C1: the verdict of `detect_and_mask` is exactly
`standalone_found OR (combinatorial count >= 2)`, both computed from the
given record alone. -/
theorem detect_verdict_eq (record : Record) :
    (detect_and_mask record).2
      = (standaloneOf record || decide (2 ≤ combinatorialCountOf record)) := by
  have h : (emailPhase record (standalonePhase record).1).2 = (emailPhase record record).2 :=
    scanSubGo_snd emailSearch emailSub record _ _ false
  simp only [detect_and_mask, verdictOf, combinatorialCountOf, standaloneOf, emailPresentOf, h]

/-- C6: for every string of exactly 10 digits, the phone masker keeps the
first 2 and last 2 digits around 6 `X`s, and running the phone
substitution on the masked result changes nothing (the masked value
contains no word-bounded 10-digit run). -/
theorem mask_phone_ten (s : List Char) (h1 : s.length = 10)
    (h2 : ∀ c ∈ s, c.isDigit = true) :
    mask_phone s = s.take 2 ++ "XXXXXX".toList ++ s.drop 8
    ∧ phoneSub (mask_phone s) = mask_phone s := by
  have hfilter : s.filter Char.isDigit = s := List.filter_eq_self.mpr h2
  have hmask : mask_phone s = s.take 2 ++ "XXXXXX".toList ++ s.drop 8 := by
    simp [mask_phone, hfilter, h1]
  refine ⟨hmask, ?_⟩
  rw [hmask]
  rcases s with _ | ⟨c0, _ | ⟨c1, _ | ⟨c2, _ | ⟨c3, _ | ⟨c4, _ | ⟨c5, _ | ⟨c6, _ | ⟨c7, _ | ⟨c8, _ | ⟨c9, rest⟩⟩⟩⟩⟩⟩⟩⟩⟩⟩ <;> simp_all
  have hrest : rest = [] := by
    cases rest with
    | nil => rfl
    | cons a t => simp at h1
  subst hrest
  have d0 : c0.isDigit = true := h2.1
  have d1 : c1.isDigit = true := h2.2.1
  have d8 : c8.isDigit = true := h2.2.2.2.2.2.2.2.2.1
  have d9 : c9.isDigit = true := h2.2.2.2.2.2.2.2.2.2
  have w0 : isWordChar c0 = true := by simp [isWordChar, Char.isAlphanum, d0]
  have w1 : isWordChar c1 = true := by simp [isWordChar, Char.isAlphanum, d1]
  have w8 : isWordChar c8 = true := by simp [isWordChar, Char.isAlphanum, d8]
  have hXd : Char.isDigit 'X' = false := by decide
  have hXw : isWordChar 'X' = true := by decide
  simp [phoneSub, reSub, reSubAux, phoneCore, fixedDigitsCore, splitRun, boundaryAt,
    d0, d1, d8, d9, w0, w1, w8, hXd, hXw]

/-- Witness for C6 at the concrete phone string `"9876543210"`. -/
theorem mask_phone_ten_witness :
    ("9876543210".toList.length = 10 ∧ ∀ c ∈ "9876543210".toList, c.isDigit = true)
    ∧ (mask_phone "9876543210".toList
          = "9876543210".toList.take 2 ++ "XXXXXX".toList ++ "9876543210".toList.drop 8
       ∧ phoneSub (mask_phone "9876543210".toList) = mask_phone "9876543210".toList) :=
  ⟨⟨by decide, by decide⟩, mask_phone_ten _ (by decide) (by decide)⟩

/-- C7: whenever the email pattern matches with groups `(lcl, dom)`, the
email masker keeps the first 2 characters of the local part (first
character plus one `X` when the local part has at most 2 characters),
replaces the remainder by at least 3 `X`s, and keeps the domain. -/
theorem mask_email_pattern (s lcl dom : List Char)
    (h : emailFind s = some (lcl, dom)) :
    mask_email s
        = (if lcl.length ≤ 2 then lcl.take 1 ++ ['X']
           else lcl.take 2 ++ List.replicate (max 3 (lcl.length - 2)) 'X') ++ '@' :: dom
    ∧ 3 ≤ max 3 (lcl.length - 2) := by
  refine ⟨?_, le_max_left _ _⟩
  simp [mask_email, h]

/-- Witness for C7 at the concrete input `"john.smith@example.com"`. -/
theorem mask_email_pattern_witness :
    emailFind "john.smith@example.com".toList
        = some ("john.smith".toList, "example.com".toList)
    ∧ (mask_email "john.smith@example.com".toList
        = (if ("john.smith".toList).length ≤ 2 then ("john.smith".toList).take 1 ++ ['X']
           else ("john.smith".toList).take 2
             ++ List.replicate (max 3 (("john.smith".toList).length - 2)) 'X')
          ++ '@' :: "example.com".toList
       ∧ 3 ≤ max 3 (("john.smith".toList).length - 2)) :=
  ⟨by decide, mask_email_pattern _ _ _ (by decide)⟩

/-- The row loop's accumulator-append fold is a map over the rows. -/
theorem foldl_append_eq_map {α β : Type} (f : α → β) :
    ∀ (l : List α) (acc : List β), l.foldl (fun a r => a ++ [f r]) acc = acc ++ l.map f := by
  intro l
  induction l with
  | nil => intro acc; simp
  | cons x t ih => intro acc; simp [List.foldl, ih]

/-- The engine on the empty record: nothing to mask, verdict `False`. -/
theorem detect_empty : detect_and_mask [] = ([], false) := by decide

/-- C8: a row whose payload fails strict parsing and still fails after
substituting single quotes is emitted with masked payload `"{}"` and
verdict `"False"`, and the batch output is a per-row map, so the failure
cannot affect any other row. -/
theorem processRow_parse_failure (parse : String → Option Record) (r : Row) (raw : String)
    (h0 : rawOf r = some raw) (h1 : parse raw = none)
    (h2 : parse (replaceQuotes raw) = none) :
    processRow parse r = (ridOf r, "\x7b\x7d", "False")
    ∧ ∀ rows : List Row, processRows parse rows = rows.map (processRow parse) := by
  constructor
  · simp [processRow, h0, h1, h2, detect_empty]
    decide
  · intro rows
    simpa using foldl_append_eq_map (processRow parse) rows []

/-- Witness for C8: the always-failing parser on a row whose payload is
the unparsable text `"oops"`. -/
theorem processRow_parse_failure_witness :
    (rawOf [("data", "oops")] = some "oops"
     ∧ (fun _ : String => (none : Option Record)) "oops" = (none : Option Record)
     ∧ (fun _ : String => (none : Option Record)) (replaceQuotes "oops") = (none : Option Record))
    ∧ (processRow (fun _ => none) [("data", "oops")]
          = (ridOf [("data", "oops")], "\x7b\x7d", "False")
       ∧ ∀ rows : List Row,
          processRows (fun _ => none) rows = rows.map (processRow (fun _ => none))) :=
  ⟨⟨by decide, rfl, rfl⟩,
    processRow_parse_failure (fun _ => none) [("data", "oops")] "oops" (by decide) rfl rfl⟩

theorem lookup_update_ne (r : Record) (k' k : String) (v : JValue) (h : k' ≠ k) :
    lookupField (updateField r k' v) k = lookupField r k := by
  induction r with
  | nil => rfl
  | cons p t ih =>
    obtain ⟨k0, v0⟩ := p
    simp only [updateField]
    by_cases h0 : k0 = k'
    · rw [if_pos h0]
      have hk : ¬ k0 = k := fun he => h (h0 ▸ he)
      simp only [lookupField]
      rw [if_neg hk, if_neg hk]
      exact ih
    · rw [if_neg h0]
      simp only [lookupField]
      by_cases h1 : k0 = k
      · rw [if_pos h1, if_pos h1]
      · rw [if_neg h1, if_neg h1]; exact ih

theorem lookup_update_self (r : Record) (k : String) (v : JValue) :
    lookupField (updateField r k v) k = (lookupField r k).map (fun _ => v) := by
  induction r with
  | nil => rfl
  | cons p t ih =>
    obtain ⟨k0, v0⟩ := p
    simp only [updateField]
    by_cases h0 : k0 = k
    · rw [if_pos h0]
      simp only [lookupField]
      rw [if_pos h0, if_pos h0]
      rfl
    · rw [if_neg h0]
      simp only [lookupField]
      rw [if_neg h0, if_neg h0]
      exact ih

theorem lookup_mem (r : Record) (k : String) (v : JValue)
    (h : lookupField r k = some v) : (k, v) ∈ r := by
  induction r with
  | nil => cases h
  | cons p t ih =>
    obtain ⟨k0, v0⟩ := p
    simp only [lookupField] at h
    by_cases h0 : k0 = k
    · rw [if_pos h0] at h
      injection h with h1
      subst h0; subst h1
      exact List.mem_cons_self _ _
    · rw [if_neg h0] at h
      exact List.mem_cons_of_mem _ (ih h)

theorem mem_val_unique (r : Record) (hnd : (r.map Prod.fst).Nodup) (k : String)
    (v v' : JValue) (h1 : (k, v) ∈ r) (h2 : (k, v') ∈ r) : v = v' := by
  induction r with
  | nil => cases h1
  | cons p t ih =>
    obtain ⟨k0, v0⟩ := p
    simp only [List.map_cons, List.nodup_cons] at hnd
    rcases List.mem_cons.mp h1 with he1 | ht1
    · rcases List.mem_cons.mp h2 with he2 | ht2
      · cases he1; cases he2; rfl
      · cases he1
        exact absurd (List.mem_map_of_mem Prod.fst ht2) hnd.1
    · rcases List.mem_cons.mp h2 with he2 | ht2
      · cases he2
        exact absurd (List.mem_map_of_mem Prod.fst ht1) hnd.1
      · exact ih hnd.2 ht1 ht2

theorem getTruthy_some {r : Record} {k : String} {w : JValue}
    (h : getTruthy r k = some w) :
    lookupField r k = some w ∧ w.truthy = true := by
  unfold getTruthy at h
  cases hb : lookupField r k with
  | none => rw [hb] at h; cases h
  | some u =>
    rw [hb] at h
    change (if u.truthy = true then some u else none) = some w at h
    by_cases ht : u.truthy = true
    · rw [if_pos ht] at h
      have huw : u = w := by injection h
      exact ⟨h, huw ▸ ht⟩
    · rw [if_neg ht] at h; cases h

theorem phoneFieldStep_preserve (record : Record) (st : Record × Bool) (f k : String)
    (v : JValue) (h : lookupField st.1 k = some v)
    (hno : f = k → ∀ w, lookupField record k = some w → (w.truthy && phoneSearch w.toStr) = false) :
    lookupField (phoneFieldStep record st f).1 k = some v := by
  unfold phoneFieldStep
  cases hw : lookupField record f with
  | none => exact h
  | some w =>
    change lookupField
        (if (w.truthy && phoneSearch w.toStr) = true then
          (updateField st.1 f (JValue.VStr (mask_phone w.toStr)), true)
        else st).1 k = some v
    by_cases hc : (w.truthy && phoneSearch w.toStr) = true
    · by_cases hfk : f = k
      · subst hfk
        rw [hno rfl w hw] at hc
        cases hc
      · rw [if_pos hc]
        simpa only [lookup_update_ne st.1 f k _ hfk] using h
    · rw [if_neg hc]
      exact h

theorem phoneFieldsPass_preserve (record : Record) (st : Record × Bool) (k : String)
    (v : JValue) (h : lookupField st.1 k = some v)
    (hno : (k = "phone" ∨ k = "contact") →
      ∀ w, lookupField record k = some w → (w.truthy && phoneSearch w.toStr) = false) :
    lookupField (phoneFieldsPass record st).1 k = some v := by
  unfold phoneFieldsPass
  exact phoneFieldStep_preserve record _ "contact" k v
    (phoneFieldStep_preserve record st "phone" k v h
      (fun hf => hno (Or.inl hf.symm)))
    (fun hf => hno (Or.inr hf.symm))

theorem phoneScanGo_preserve :
    ∀ (items : List (String × JValue)) (st : Record × Bool) (k : String) (v : JValue),
      lookupField st.1 k = some v →
      (∀ s, (k, JValue.VStr s) ∈ items → phoneSearch s = false) →
      lookupField (phoneScanGo items st).1 k = some v := by
  intro items
  induction items with
  | nil => intro st k v h _; exact h
  | cons kv rest ih =>
    intro st k v h hno
    obtain ⟨k0, v0⟩ := kv
    have hno' : ∀ s, (k, JValue.VStr s) ∈ rest → phoneSearch s = false :=
      fun s hs => hno s (List.mem_cons_of_mem _ hs)
    cases v0 with
    | VStr s =>
      by_cases hts : phoneSearch s = true
      · have hk0 : k0 ≠ k := by
          intro he
          subst he
          rw [hno s (List.mem_cons_self _ _)] at hts
          cases hts
        simp only [phoneScanGo, hts, if_true]
        cases hcur : lookupField st.1 k0 with
        | none =>
          exact ih _ k v (by rw [lookup_update_ne st.1 k0 k _ hk0]; exact h) hno'
        | some cur =>
          by_cases hX : cur.toStr.contains 'X' = true
          · simp only [hX, if_true]
            exact ih st k v h hno'
          · simp only [hX, if_false, Bool.false_eq_true]
            exact ih _ k v (by rw [lookup_update_ne st.1 k0 k _ hk0]; exact h) hno'
      · simp only [phoneScanGo, hts, if_false, Bool.false_eq_true]
        exact ih st k v h hno'
    | VNum n => exact ih st k v h hno'
    | VNull => exact ih st k v h hno'

theorem scanSubGo_preserve (test : List Char → Bool) (tr : List Char → List Char) :
    ∀ (items : List (String × JValue)) (st : Record × Bool) (k : String) (v : JValue),
      lookupField st.1 k = some v →
      (∀ s, (k, JValue.VStr s) ∈ items → test s = false) →
      lookupField (scanSubGo test tr items st).1 k = some v := by
  intro items
  induction items with
  | nil => intro st k v h _; exact h
  | cons kv rest ih =>
    intro st k v h hno
    obtain ⟨k0, v0⟩ := kv
    have hno' : ∀ s, (k, JValue.VStr s) ∈ rest → test s = false :=
      fun s hs => hno s (List.mem_cons_of_mem _ hs)
    cases v0 with
    | VStr s =>
      by_cases hts : test s = true
      · have hk0 : k0 ≠ k := by
          intro he
          subst he
          rw [hno s (List.mem_cons_self _ _)] at hts
          cases hts
        simp only [scanSubGo, hts, if_true]
        exact ih _ k v (by rw [lookup_update_ne st.1 k0 k _ hk0]; exact h) hno'
      · simp only [scanSubGo, hts, if_false, Bool.false_eq_true]
        exact ih st k v h hno'
    | VNum n => exact ih st k v h hno'
    | VNull => exact ih st k v h hno'

theorem upiScanGo_preserve :
    ∀ (items : List (String × JValue)) (st : Record × Bool) (k : String) (v : JValue),
      lookupField st.1 k = some v →
      (∀ s, (k, JValue.VStr s) ∈ items →
        (s.contains '@' && upiSearch s && !(afterFirstAt s).contains '.') = false) →
      lookupField (upiScanGo items st).1 k = some v := by
  intro items
  induction items with
  | nil => intro st k v h _; exact h
  | cons kv rest ih =>
    intro st k v h hno
    obtain ⟨k0, v0⟩ := kv
    have hno' : ∀ s, (k, JValue.VStr s) ∈ rest →
        (s.contains '@' && upiSearch s && !(afterFirstAt s).contains '.') = false :=
      fun s hs => hno s (List.mem_cons_of_mem _ hs)
    cases v0 with
    | VStr s =>
      by_cases hout : (s.contains '@' && upiSearch s) = true
      · by_cases hdot : (afterFirstAt s).contains '.' = true
        · simp only [upiScanGo, hout, if_true, hdot]
          exact ih st k v h hno'
        · have hk0 : k0 ≠ k := by
            intro he
            subst he
            have := hno s (List.mem_cons_self _ _)
            rw [hout, Bool.true_and] at this
            have hcf : (afterFirstAt s).contains '.' = true := by
              cases hcc : (afterFirstAt s).contains '.' with
              | false => rw [hcc] at this; simp at this
              | true => rfl
            exact hdot hcf
          simp only [upiScanGo, hout, if_true, hdot, if_false, Bool.false_eq_true]
          exact ih _ k v (by rw [lookup_update_ne st.1 k0 k _ hk0]; exact h) hno'
      · simp only [upiScanGo, hout, if_false, Bool.false_eq_true]
        exact ih st k v h hno'
    | VNum n => exact ih st k v h hno'
    | VNull => exact ih st k v h hno'

theorem upiPass_preserve (record : Record) (st : Record × Bool) (k : String) (v : JValue)
    (h : lookupField st.1 k = some v)
    (hl : lookupField record k = some v)
    (hupi : k = "upi_id" → (v.truthy && upiSearch v.toStr) = false)
    (hscan : ∀ s, (k, JValue.VStr s) ∈ record →
      (s.contains '@' && upiSearch s && !(afterFirstAt s).contains '.') = false) :
    lookupField (upiPass record st).1 k = some v := by
  unfold upiPass
  cases hg : getTruthy record "upi_id" with
  | none => exact upiScanGo_preserve record st k v h hscan
  | some w =>
    obtain ⟨hwl, hwt⟩ := getTruthy_some hg
    change lookupField
        (if upiSearch w.toStr = true then
          (updateField st.1 "upi_id" (JValue.VStr (mask_upi w.toStr)), true)
        else st).1 k = some v
    by_cases hs : upiSearch w.toStr = true
    · by_cases hk : k = "upi_id"
      · subst hk
        rw [hl] at hwl
        injection hwl with hwv
        subst hwv
        have := hupi rfl
        rw [hwt, hs] at this
        cases this
      · rw [if_pos hs]
        simpa only [lookup_update_ne st.1 "upi_id" k _ (fun he => hk he.symm)] using h
    · rw [if_neg hs]
      exact h

theorem namePhase_preserve (record red : Record) (k : String) (v : JValue)
    (h : lookupField red k = some v)
    (hl : lookupField record k = some v)
    (hfl : (k = "first_name" ∨ k = "last_name") →
      ((getTruthy record "first_name").isSome && (getTruthy record "last_name").isSome) = false)
    (hn : k = "name" → (v.truthy && namePresentOf record) = false) :
    lookupField (namePhase record red) k = some v := by
  unfold namePhase
  by_cases hnp : namePresentOf record = true
  · rw [if_pos hnp]
    have hA : lookupField
        (if (getTruthy record "first_name").isSome && (getTruthy record "last_name").isSome then
          updateField
            (updateField red "first_name"
              (JValue.VStr (mask_generic_name ((getTruthy record "first_name").getD JValue.VNull).toStr)))
            "last_name"
            (JValue.VStr (mask_generic_name ((getTruthy record "last_name").getD JValue.VNull).toStr))
        else red) k = some v := by
      by_cases hb : ((getTruthy record "first_name").isSome
          && (getTruthy record "last_name").isSome) = true
      · have hk1 : k ≠ "first_name" := fun he => by
          rw [hfl (Or.inl he)] at hb; cases hb
        have hk2 : k ≠ "last_name" := fun he => by
          rw [hfl (Or.inr he)] at hb; cases hb
        rw [if_pos hb]
        rw [lookup_update_ne _ "last_name" k _ (fun he => hk2 he.symm)]
        rw [lookup_update_ne _ "first_name" k _ (fun he => hk1 he.symm)]
        exact h
      · rw [if_neg hb]
        exact h
    cases hg : getTruthy record "name" with
    | none => exact hA
    | some w =>
      obtain ⟨hwl, hwt⟩ := getTruthy_some hg
      by_cases hk : k = "name"
      · subst hk
        rw [hl] at hwl
        injection hwl with hwv
        subst hwv
        have := hn rfl
        rw [hwt, hnp] at this
        cases this
      · rw [lookup_update_ne _ "name" k _ (fun he => hk he.symm)]
        exact hA
  · rw [if_neg hnp]
    exact h

theorem addressPhase_preserve (record red : Record) (k : String) (v : JValue)
    (h : lookupField red k = some v)
    (haddr : (k = "address" ∨ k = "pin_code") → addressPresentOf record = false) :
    lookupField (addressPhase record red) k = some v := by
  unfold addressPhase
  by_cases hap : addressPresentOf record = true
  · have hk1 : k ≠ "address" := fun he => by
      rw [haddr (Or.inl he)] at hap; cases hap
    have hk2 : k ≠ "pin_code" := fun he => by
      rw [haddr (Or.inr he)] at hap; cases hap
    rw [if_pos hap]
    rw [lookup_update_ne _ "pin_code" k _ (fun he => hk2 he.symm)]
    rw [lookup_update_ne _ "address" k _ (fun he => hk1 he.symm)]
    exact h
  · rw [if_neg hap]
    exact h

theorem devicePhase_preserve (record red : Record) (k : String) (v : JValue)
    (h : lookupField red k = some v)
    (hl : lookupField record k = some v)
    (hdev : k = "device_id" → v.truthy = false)
    (hip : k = "ip_address" → v.truthy = false) :
    lookupField (devicePhase record red) k = some v := by
  unfold devicePhase
  by_cases hdp : devicePresentOf record = true
  · rw [if_pos hdp]
    have hA : lookupField
        (match getTruthy record "device_id" with
         | some w => updateField red "device_id" (JValue.VStr (mask_device w.toStr))
         | none => red) k = some v := by
      cases hg : getTruthy record "device_id" with
      | none => exact h
      | some w =>
        obtain ⟨hwl, hwt⟩ := getTruthy_some hg
        have hk : k ≠ "device_id" := by
          intro he
          subst he
          rw [hl] at hwl
          injection hwl with hwv
          subst hwv
          rw [hdev rfl] at hwt
          cases hwt
        rw [lookup_update_ne _ "device_id" k _ (fun he => hk he.symm)]
        exact h
    cases hg : getTruthy record "ip_address" with
    | none => exact hA
    | some w =>
      obtain ⟨hwl, hwt⟩ := getTruthy_some hg
      have hk : k ≠ "ip_address" := by
        intro he
        subst he
        rw [hl] at hwl
        injection hwl with hwv
        subst hwv
        rw [hip rfl] at hwt
        cases hwt
      rw [lookup_update_ne _ "ip_address" k _ (fun he => hk he.symm)]
      exact hA
  · rw [if_neg hdp]
    exact h

theorem rollbackEmailGo_keeps :
    ∀ (items : List (String × JValue)) (red : Record) (k : String) (v : JValue),
      lookupField red k = some v →
      (∀ w, (k, w) ∈ items → w = v) →
      lookupField (rollbackEmailGo items red) k = some v := by
  intro items
  induction items with
  | nil => intro red k v h _; exact h
  | cons kv rest ih =>
    intro red k v h hv
    obtain ⟨k0, v0⟩ := kv
    have hv' : ∀ w, (k, w) ∈ rest → w = v := fun w hw => hv w (List.mem_cons_of_mem _ hw)
    cases v0 with
    | VStr s =>
      by_cases hts : emailSearch s = true
      · simp only [rollbackEmailGo, hts, if_true]
        cases hcur : lookupField red k0 with
        | none => exact ih red k v h hv'
        | some cur =>
          simp only [Option.isSome_some, if_true]
          by_cases hk0 : k0 = k
          · subst hk0
            have hsv : JValue.VStr s = v := hv _ (List.mem_cons_self _ _)
            have hupd : lookupField (updateField red k0 (JValue.VStr s)) k0 = some v := by
              rw [lookup_update_self, h, hsv]
              rfl
            exact ih _ k0 v hupd hv'
          · have hupd : lookupField (updateField red k0 (JValue.VStr s)) k = some v := by
              rw [lookup_update_ne red k0 k _ hk0]
              exact h
            exact ih _ k v hupd hv'
      · simp only [rollbackEmailGo, hts, if_false, Bool.false_eq_true]
        exact ih red k v h hv'
    | VNum n => exact ih red k v h hv'
    | VNull => exact ih red k v h hv'

theorem rollbackPhase_keeps (record red : Record) (k : String) (v : JValue)
    (h : lookupField red k = some v)
    (hl : lookupField record k = some v)
    (hv : ∀ w, (k, w) ∈ record → w = v) :
    lookupField (rollbackPhase record red) k = some v := by
  unfold rollbackPhase
  have h1 : lookupField (rollbackEmailGo record red) k = some v :=
    rollbackEmailGo_keeps record red k v h hv
  have h2 : lookupField
      (match getTruthy record "name" with
       | some w =>
         if (splitWs w.toStr).length < 2 then
           updateField (rollbackEmailGo record red) "name" w
         else rollbackEmailGo record red
       | none => rollbackEmailGo record red) k = some v := by
    cases hg : getTruthy record "name" with
    | none => exact h1
    | some w =>
      change lookupField
          (if (splitWs w.toStr).length < 2 then
            updateField (rollbackEmailGo record red) "name" w
          else rollbackEmailGo record red) k = some v
      by_cases hlen : (splitWs w.toStr).length < 2
      · rw [if_pos hlen]
        by_cases hk : k = "name"
        · subst hk
          obtain ⟨hwl, _⟩ := getTruthy_some hg
          rw [hl] at hwl
          injection hwl with hwv
          subst hwv
          rw [lookup_update_self, h1]
          rfl
        · rw [lookup_update_ne _ "name" k _ (fun he => hk he.symm)]
          exact h1
      · rw [if_neg hlen]
        exact h1
  set r2 := (match getTruthy record "name" with
       | some w =>
         if (splitWs w.toStr).length < 2 then
           updateField (rollbackEmailGo record red) "name" w
         else rollbackEmailGo record red
       | none => rollbackEmailGo record red) with hr2
  by_cases hlop : (((getTruthy record "first_name").isSome && !(getTruthy record "last_name").isSome)
      || ((getTruthy record "last_name").isSome && !(getTruthy record "first_name").isSome)) = true
  · rw [if_pos hlop]
    have h3 : lookupField
        (if (lookupField r2 "first_name").isSome then
          updateField r2 "first_name" ((lookupField record "first_name").getD JValue.VNull)
        else r2) k = some v := by
      by_cases hf : (lookupField r2 "first_name").isSome = true
      · rw [if_pos hf]
        by_cases hk : k = "first_name"
        · subst hk
          rw [lookup_update_self, h2, hl]
          rfl
        · rw [lookup_update_ne _ "first_name" k _ (fun he => hk he.symm)]
          exact h2
      · rw [if_neg hf]
        exact h2
    set ra := (if (lookupField r2 "first_name").isSome then
          updateField r2 "first_name" ((lookupField record "first_name").getD JValue.VNull)
        else r2) with hra
    by_cases hg2 : (lookupField ra "last_name").isSome = true
    · rw [if_pos hg2]
      by_cases hk : k = "last_name"
      · subst hk
        rw [lookup_update_self, h3, hl]
        rfl
      · rw [lookup_update_ne _ "last_name" k _ (fun he => hk he.symm)]
        exact h3
    · rw [if_neg hg2]
      exact h3
  · rw [if_neg hlop]
    exact h2

theorem lookup_finalizePass (red : Record) (k : String) :
    lookupField (finalizePass red) k = (lookupField red k).map finalizeVal := by
  induction red with
  | nil => rfl
  | cons p t ih =>
    obtain ⟨k0, v0⟩ := p
    by_cases h0 : k0 = k
    · simp only [finalizePass, List.map_cons, lookupField]
      rw [if_pos h0, if_pos h0]
      rfl
    · simp only [finalizePass, List.map_cons, lookupField]
      rw [if_neg h0, if_neg h0]
      exact ih

theorem finalizeVal_untouched (v : JValue)
    (hpat : (match v with | JValue.VStr s => noPatternStr s | _ => true) = true) :
    finalizeVal v = v := by
  cases v with
  | VStr s =>
    simp only [noPatternStr, Bool.and_eq_true, Bool.not_eq_true'] at hpat
    obtain ⟨⟨⟨⟨⟨hph, had⟩, hps⟩, hup⟩, hem⟩, hip⟩ := hpat
    simp only [finalizeVal, finalizeStr, hph, had, hps, hem, hip, if_false,
      Bool.false_eq_true]
  | VNum n => rfl
  | VNull => rfl

/-- C9: any field of a record that no recognizer matches and that is not
a targeted known field with a firing rule appears unchanged in the output
of `detect_and_mask`. -/
theorem untouched_field_unchanged (record : Record) (k : String) (v : JValue)
    (hnd : (record.map Prod.fst).Nodup)
    (hl : lookupField record k = some v)
    (hu : untouchedField record k v = true) :
    lookupField (detect_and_mask record).1 k = some v := by
  simp only [untouchedField, Bool.and_eq_true] at hu
  obtain ⟨⟨⟨⟨⟨⟨⟨hpat, hphone⟩, hupi⟩, hfl⟩, hname⟩, haddr⟩, hdev⟩, hip⟩ := hu
  have hmem : (k, v) ∈ record := lookup_mem record k v hl
  have hv : ∀ w, (k, w) ∈ record → w = v :=
    fun w hw => mem_val_unique record hnd k w v hw hmem
  have hstr : ∀ s, (k, JValue.VStr s) ∈ record → noPatternStr s = true := by
    intro s hs
    have hsv := hv _ hs
    rw [← hsv] at hpat
    exact hpat
  have hstrc : ∀ s, (k, JValue.VStr s) ∈ record →
      phoneSearch s = false ∧ aadharSearch s = false ∧ passportSearch s = false
      ∧ (s.contains '@' && upiSearch s && !(afterFirstAt s).contains '.') = false
      ∧ emailSearch s = false ∧ ipv4Search s = false := by
    intro s hs
    have := hstr s hs
    simp only [noPatternStr, Bool.and_eq_true, Bool.not_eq_true'] at this
    exact ⟨this.1.1.1.1.1, this.1.1.1.1.2, this.1.1.1.2, this.1.1.2, this.1.2, this.2⟩
  have hphoneK : (k = "phone" ∨ k = "contact") → (v.truthy && phoneSearch v.toStr) = false := by
    intro hk
    have hkb : (k == "phone" || k == "contact") = true := by
      rcases hk with hk | hk <;> simp [hk]
    rw [hkb, Bool.not_true, Bool.false_or, Bool.not_eq_true'] at hphone
    exact hphone
  have hphoneRule1 : (k = "phone" ∨ k = "contact") →
      ∀ w, lookupField record k = some w → (w.truthy && phoneSearch w.toStr) = false := by
    intro hk w hw
    rw [hl] at hw
    injection hw with hwv
    subst hwv
    exact hphoneK hk
  have hupiK : k = "upi_id" → (v.truthy && upiSearch v.toStr) = false := by
    intro hk
    have hkb : (k == "upi_id") = true := by simp [hk]
    rw [hkb, Bool.not_true, Bool.false_or, Bool.not_eq_true'] at hupi
    exact hupi
  have hflK : (k = "first_name" ∨ k = "last_name") →
      ((getTruthy record "first_name").isSome && (getTruthy record "last_name").isSome) = false := by
    intro hk
    have hkb : (k == "first_name" || k == "last_name") = true := by
      rcases hk with hk | hk <;> simp [hk]
    rw [hkb, Bool.not_true, Bool.false_or, Bool.not_eq_true'] at hfl
    exact hfl
  have hnameK : k = "name" → (v.truthy && namePresentOf record) = false := by
    intro hk
    have hkb : (k == "name") = true := by simp [hk]
    rw [hkb, Bool.not_true, Bool.false_or, Bool.not_eq_true'] at hname
    exact hname
  have haddrK : (k = "address" ∨ k = "pin_code") → addressPresentOf record = false := by
    intro hk
    have hkb : (k == "address" || k == "pin_code") = true := by
      rcases hk with hk | hk <;> simp [hk]
    rw [hkb, Bool.not_true, Bool.false_or, Bool.not_eq_true'] at haddr
    exact haddr
  have hdevK : k = "device_id" → v.truthy = false := by
    intro hk
    have hkb : (k == "device_id") = true := by simp [hk]
    rw [hkb, Bool.not_true, Bool.false_or, Bool.not_eq_true'] at hdev
    exact hdev
  have hipK : k = "ip_address" → v.truthy = false := by
    intro hk
    have hkb : (k == "ip_address") = true := by simp [hk]
    rw [hkb, Bool.not_true, Bool.false_or, Bool.not_eq_true'] at hip
    exact hip
  have h5 : lookupField (standalonePhase record).1 k = some v := by
    unfold standalonePhase
    exact upiPass_preserve record _ k v
      (scanSubGo_preserve passportSearch passportSub record _ k v
        (scanSubGo_preserve aadharSearch aadharSub record _ k v
          (phoneScanGo_preserve record _ k v
            (phoneFieldsPass_preserve record (record, false) k v hl hphoneRule1)
            (fun s hs => (hstrc s hs).1))
          (fun s hs => (hstrc s hs).2.1))
        (fun s hs => (hstrc s hs).2.2.1))
      hl hupiK (fun s hs => (hstrc s hs).2.2.2.1)
  have h6 : lookupField (emailPhase record (standalonePhase record).1).1 k = some v := by
    unfold emailPhase
    exact scanSubGo_preserve emailSearch emailSub record _ k v h5
      (fun s hs => (hstrc s hs).2.2.2.2.1)
  have h7 := namePhase_preserve record (emailPhase record (standalonePhase record).1).1 k v
    h6 hl hflK hnameK
  have h8 := addressPhase_preserve record _ k v h7 haddrK
  have h9 := devicePhase_preserve record
    (addressPhase record (namePhase record (emailPhase record (standalonePhase record).1).1))
    k v h8 hl hdevK hipK
  have hfin : finalizeVal v = v := finalizeVal_untouched v hpat
  simp only [detect_and_mask]
  by_cases hp : verdictOf record = true
  · rw [if_pos hp, if_pos hp]
    rw [lookup_finalizePass, h9, Option.map_some', hfin]
  · rw [if_neg hp, if_neg hp]
    exact rollbackPhase_keeps record _ k v h9 hl hv

/-- Witness for C9 at the one-field record `note = "hello"`. -/
theorem untouched_field_unchanged_witness :
    (([("note", JValue.VStr "hello".toList)] : Record).map Prod.fst).Nodup
    ∧ lookupField [("note", JValue.VStr "hello".toList)] "note"
        = some (JValue.VStr "hello".toList)
    ∧ untouchedField [("note", JValue.VStr "hello".toList)] "note"
        (JValue.VStr "hello".toList) = true
    ∧ lookupField (detect_and_mask [("note", JValue.VStr "hello".toList)]).1 "note"
        = some (JValue.VStr "hello".toList) :=
  ⟨by decide, by decide, by decide,
   untouched_field_unchanged [("note", JValue.VStr "hello".toList)] "note"
     (JValue.VStr "hello".toList) (by decide) (by decide) (by decide)⟩
